import Mathlib

/-
Verification of the Active-Location Resolution & Command-Execution Safety
Engine of nautilus-vscode-widget (nautilus-vscode-widget.py).

The filesystem, PATH lookup, process launching and the wall clock are
modelled by an abstract snapshot `FS`; the Python functions are translated
into pure Lean functions over that snapshot.  String-valued operating-system
primitives (os.path.realpath, os.path.isdir, os.access, shutil.which, ...)
become fields of `FS`; every concrete counterexample instantiates `FS`
with explicit finite tables.
-/

set_option maxRecDepth 4000

/-! ## String helpers mirroring the Python string primitives -/

/-- The character class used by Python `str.strip()` / `str.split()`. -/
def pyIsSpace (c : Char) : Bool :=
  c = ' ' || c = '\t' || c = '\n' || c = '\r' || c = Char.ofNat 11 || c = Char.ofNat 12

/-- Python `s.strip()`: remove `pyIsSpace` characters from both ends
(right end first; the order does not matter semantically). -/
def pyStrip (s : String) : String :=
  String.mk ((s.toList.reverse.dropWhile pyIsSpace).reverse.dropWhile pyIsSpace)

/-- The first whitespace-delimited token of an already-stripped string;
this is Python `s.split()[0]` for a stripped nonempty `s`. -/
def firstToken (s : String) : String :=
  String.mk (s.toList.takeWhile (fun c => !pyIsSpace c))

/-- Python `c in s` for a single character. -/
def containsChar (s : String) (c : Char) : Bool := s.toList.contains c

/-- Python `os.path.basename`: the part after the last slash. -/
def basename (s : String) : String :=
  String.mk ((s.toList.reverse.takeWhile (fun c => c ≠ '/')).reverse)

/-- Python `needle in hay` (substring containment). -/
def strContains (hay needle : String) : Bool :=
  hay.toList.tails.any (fun t => needle.toList.isPrefixOf t)

/-- Python `s.startswith(p)` (character-level, avoiding byte positions). -/
def strStarts (s p : String) : Bool := p.toList.isPrefixOf s.toList

/-- Python `s[n:]` on character counts. -/
def strDropN (s : String) (n : Nat) : String := String.mk (s.toList.drop n)

/-- Python `s.lower()` restricted to ASCII (all table entries compared by
the program are ASCII-lowercase already). -/
def strLower (s : String) : String := String.mk (s.toList.map Char.toLower)

/-- Python `s.rstrip('/')`. -/
def pyRstripSlash (s : String) : String :=
  String.mk ((s.toList.reverse.dropWhile (fun c => c = '/')).reverse)

/-! ## The policy tables (verbatim from the source) -/

/-- `dangerous_commands` from `validate_editor_command`. -/
def dangerous_commands : List String :=
  ["rm", "sudo", "su", "chmod", "chown", "dd", "mkfs", "fdisk",
   "shutdown", "reboot", "halt", "poweroff", "init", "killall",
   "pkill", "kill", "systemctl", "service", "bash", "sh", "zsh",
   "python", "perl", "ruby", "node", "wget", "curl", "nc", "netcat"]

/-- `known_safe_editors` from `validate_editor_command`. -/
def known_safe_editors : List String :=
  ["code", "code-insiders", "codium", "vscodium",
   "vim", "nvim", "vi", "nano", "emacs", "gedit", "kate",
   "sublime_text", "subl", "atom", "notepad++",
   "mousepad", "pluma", "xed", "geany", "brackets"]

/-- `system_dirs` from `validate_editor_command`. -/
def system_dirs : List String :=
  ["/bin/", "/sbin/", "/usr/bin/", "/usr/sbin/", "/usr/local/bin/"]

/-- `forbidden_dirs` from `validate_directory`. -/
def forbidden_dirs : List String :=
  ["/root", "/etc", "/sys", "/proc", "/dev", "/boot",
   "/var/log", "/usr/sbin", "/sbin"]

/-- `allowed_prefixes` from `validate_directory` (first entry is the
user's home directory, the rest carry a trailing slash in the source). -/
def allowed_roots (home : String) : List String :=
  [home, "/tmp/", "/var/tmp/", "/opt/", "/usr/local/", "/media/", "/mnt/"]

/-! ## The filesystem / OS snapshot -/

/-- One `os.scandir` entry: its name and the result of
`entry.is_dir(follow_symlinks=False)` (`none` models the call raising
`OSError`, which the source catches and skips). -/
structure DirEntry where
  name : String
  isDirRes : Option Bool
deriving DecidableEq

/-- Abstract snapshot of everything the engine reads from the operating
system.  All fields are total; a raised `OSError` in the source is either
modelled by an `Option` result (`which`, `listdir`, `scandir`, `isDirRes`)
or is impossible for the boolean/metadata queries, which the source treats
as total predicates as well. -/
structure FS where
  realpath : String → String
  isdir : String → Bool
  readable : String → Bool
  pathExists : String → Bool
  isfile : String → Bool
  accessX : String → Bool
  getsize : String → Nat
  stUid : String → Nat
  getuid : Nat
  worldWritable : String → Bool
  userHome : String
  which : String → Option String
  popenOk : String → Bool
  listdir : String → Option (List String)
  scandir : String → Option (List DirEntry)
  now : Nat → Nat

/-- All-closed base snapshot; counterexamples override single fields. -/
def trivialFS : FS where
  realpath := fun p => p
  isdir := fun _ => false
  readable := fun _ => false
  pathExists := fun _ => false
  isfile := fun _ => false
  accessX := fun _ => false
  getsize := fun _ => 0
  stUid := fun _ => 0
  getuid := 0
  worldWritable := fun _ => false
  userHome := "/home/user"
  which := fun _ => none
  popenOk := fun _ => false
  listdir := fun _ => none
  scandir := fun _ => none
  now := fun _ => 0

/-! ## CommandSafetyValidator: `validate_editor_command` -/

/-- The token the validator operates on: the stripped candidate, cut at the
first whitespace run when (and only when) the stripped candidate contains a
space character (source: `if ' ' in cmd: cmd = cmd.split()[0]`). -/
def editor_token (cmd : String) : String :=
  let c0 := pyStrip cmd
  if containsChar c0 ' ' then firstToken c0 else c0

/-- The body of `validate_editor_command` after token extraction:
deny-list check, then the absolute-path branch or the PATH-lookup branch. -/
def validate_editor_token (fs : FS) (c : String) : Option String :=
  let base := basename c
  if dangerous_commands.contains base || strStarts base "rm" then none
  else if strStarts c "/" then
    let rp := fs.realpath c
    if !(fs.isfile rp && fs.accessX rp) then none
    else if 500 * 1024 * 1024 < fs.getsize rp then none
    else if known_safe_editors.contains base
        || known_safe_editors.any (fun e => strContains (strLower rp) e) then some rp
    else if system_dirs.any (fun d => strStarts rp d) then none
    else if fs.stUid rp = fs.getuid then
      if fs.worldWritable rp then none else some rp
    else none
  else
    match fs.which c with
    | none => none
    | some cp =>
      let rp := fs.realpath cp
      if !(fs.isfile rp && fs.accessX rp) then none
      else if 500 * 1024 * 1024 < fs.getsize rp then none
      else if known_safe_editors.contains base
          || known_safe_editors.any (fun e => strContains (strLower rp) e) then some rp
      else none

/-- `validate_editor_command` (source lines 240-338). -/
def validate_editor_command (fs : FS) (cmd : String) : Option String :=
  if cmd = "" then none
  else validate_editor_token fs (editor_token cmd)

/-! ## PathSafetyValidator: `validate_directory` -/

/-- `validate_directory` (source lines 341-389). -/
def validate_directory (fs : FS) (path : String) : Option String :=
  if path = "" then none
  else
    let rp := fs.realpath path
    if !fs.isdir rp then none
    else if !fs.readable rp then none
    else if forbidden_dirs.contains rp then none
    else if (allowed_roots fs.userHome).any
        (fun root => strStarts rp root || rp = pyRstripSlash root) then some rp
    else none

example : validate_directory
    { trivialFS with isdir := fun p => p == "/home/user/proj", readable := fun _ => true }
    "/home/user/proj" = some "/home/user/proj" := by decide

example : validate_directory
    { trivialFS with isdir := fun _ => true, readable := fun _ => true }
    "/etc" = none := by decide

example : validate_editor_command
    { trivialFS with
      which := fun c => (if c == "code" then some "/usr/bin/code" else none),
      isfile := fun _ => true, accessX := fun _ => true }
    "code --wait" = some "/usr/bin/code" := by decide

/-! ## The two launch paths

A launch is modelled by the argument pair `(command, directory)` handed to
`subprocess.Popen([command, directory], ...)`; the functions below return
`some (command, directory)` exactly when the source reaches a `Popen` call
(for the fallback, when the `Popen` call does not raise, which the source
treats as launch success). -/

/-- `try_open_with_editor` (source lines 1881-1931): validates the
configured command and the current directory, then launches with exactly
the two validated values. -/
def try_open_with_editor (fs : FS) (editor_cmd current_directory : String) :
    Option (String × String) :=
  match validate_editor_command fs editor_cmd with
  | none => none
  | some vc =>
    match validate_directory fs current_directory with
    | none => none
    | some vd => some (vc, vd)

/-- The hard-coded `vscode_commands` list of `try_open_with_common_editors`
(the last entry is `os.path.expanduser('~/.local/bin/code')`). -/
def vscode_commands (home : String) : List String :=
  ["code", "code-insiders", "codium", "vscodium",
   "/usr/bin/code", "/usr/local/bin/code", "/snap/bin/code",
   "/var/lib/flatpak/app/com.visualstudio.code/current/active/export/bin/com.visualstudio.code",
   "/opt/visual-studio-code/bin/code", home ++ "/.local/bin/code"]

/-- The candidate loop of `try_open_with_common_editors`: absolute
candidates are checked with `os.path.isfile`/`os.access`, bare names with
the external `which` command; the first surviving candidate is launched as
`Popen([cmd, self.current_directory])` with no validator applied; a raising
`Popen` (`popenOk = false`) falls through to the next candidate. -/
def try_common_go (fs : FS) (current_directory : String) :
    List String → Option (String × String)
  | [] => none
  | cmd :: rest =>
    let okExists :=
      if strStarts cmd "/" then fs.isfile cmd && fs.accessX cmd
      else (fs.which cmd).isSome
    if okExists then
      if fs.popenOk cmd then some (cmd, current_directory)
      else try_common_go fs current_directory rest
    else try_common_go fs current_directory rest

/-- `try_open_with_common_editors` (source lines 1933-1996). -/
def try_open_with_common_editors (fs : FS) (current_directory : String) :
    Option (String × String) :=
  try_common_go fs current_directory (vscode_commands fs.userHome)

/-! ## LocationResolver: `get_nautilus_directory_multiple_methods`

The three strategies call external tools (`xdotool`, `gdbus`) and are
modelled by their observable outcome: a returned optional directory, or a
raised exception (`.exc`), which the loop catches and skips. -/

/-- The outcome of one detection-strategy call. -/
inductive StratResult where
  | exc : StratResult
  | ok : Option String → StratResult
deriving DecidableEq

/-- The outcomes of the three strategies, in the source's fixed order. -/
structure ResolveEnv where
  dbus : StratResult
  activeWindow : StratResult
  fallback : StratResult
deriving DecidableEq

/-- The per-strategy acceptance test of the resolver loop:
`if directory and os.path.exists(directory): return directory`
(a raised exception is caught and treated like no result). -/
def acceptResult (fs : FS) : StratResult → Option String
  | .exc => none
  | .ok none => none
  | .ok (some d) => if (d != "") && fs.pathExists d then some d else none

/-- `get_nautilus_directory_multiple_methods` (source lines 2003-2026). -/
def get_nautilus_directory_multiple_methods (fs : FS) (env : ResolveEnv) :
    Option String :=
  match acceptResult fs env.dbus with
  | some d => some d
  | none =>
    match acceptResult fs env.activeWindow with
    | some d => some d
    | none =>
      match acceptResult fs env.fallback with
      | some d => some d
      | none => none

/-! ## Recursive name search: `recursive_folder_search`

Wall-clock time is modelled by `fs.now : Nat → Nat` (milliseconds): the
k-th call to `time.time()` during the run returns `fs.now k`; the tick
counter is threaded explicitly.  The source's 2.0-second budget becomes
`2000` milliseconds. -/

/-- `excluded_dirs` from `recursive_folder_search`. -/
def excluded_dirs : List String :=
  ["node_modules", "__pycache__", ".git", ".svn", ".hg",
   ".cache", ".config", ".local", ".npm", ".cargo", ".rustup",
   "venv", "env", ".venv", ".env", "virtualenv",
   "site-packages", "dist", "build", ".tox",
   "snap", "flatpak", ".wine", ".steam",
   ".mozilla", ".thunderbird", ".var"]

/-- The `for entry in entries` loop of `recursive_folder_search`: per-entry
budget check, skip entries that are not directories when symlinks are not
followed (`entry.is_dir(follow_symlinks=False)`); skip hidden and excluded
names; return on a case-insensitive name match; recurse one level deeper
through `recur` while `canRecurse` (the loop-invariant source guard
`current_depth < max_depth - 1`) holds. -/
def rfs_loop (fs : FS) (base_dir target_name : String) (start : Nat)
    (canRecurse : Bool) (recur : String → Nat → Option String × Nat) :
    List DirEntry → Nat → Option String × Nat
  | [], tick => (none, tick)
  | e :: rest, tick =>
    let tNow := fs.now tick
    let tick1 := tick + 1
    if 2000 < tNow - start then (none, tick1)
    else
      match e.isDirRes with
      | none => rfs_loop fs base_dir target_name start canRecurse recur rest tick1
      | some false => rfs_loop fs base_dir target_name start canRecurse recur rest tick1
      | some true =>
        if strStarts e.name "." || excluded_dirs.contains e.name then
          rfs_loop fs base_dir target_name start canRecurse recur rest tick1
        else if strLower e.name = strLower target_name then
          (some (base_dir ++ "/" ++ e.name), tick1)
        else if canRecurse then
          match recur (base_dir ++ "/" ++ e.name) tick1 with
          | (some r, tk) => (some r, tk)
          | (none, tk) => rfs_loop fs base_dir target_name start canRecurse recur rest tk
        else rfs_loop fs base_dir target_name start canRecurse recur rest tick1

/-- The body of `recursive_folder_search`, parameterised by the remaining
depth `fuel = max_depth - current_depth`, the only form in which the
source reads the `(max_depth, current_depth)` pair: the depth test
`current_depth >= max_depth` is `fuel = 0`, the recursion guard
`current_depth < max_depth - 1` is `2 ≤ fuel`, and the recursive call at
`current_depth + 1` carries `fuel - 1`.  Structural recursion on `fuel`
keeps the definition kernel-computable. -/
def rfs_fuel (fs : FS) (target_name : String) :
    Nat → String → Option Nat → Nat → Option String × Nat
  | fuel, base_dir, startO, tick =>
    let start := match startO with | none => fs.now tick | some s => s
    let tick1 := match startO with | none => tick + 1 | some _ => tick
    let tNow := fs.now tick1
    let tick2 := tick1 + 1
    if 2000 < tNow - start then (none, tick2)
    else
      match fuel with
      | 0 => (none, tick2)
      | f + 1 =>
        match fs.scandir base_dir with
        | none => (none, tick2)
        | some entries =>
          rfs_loop fs base_dir target_name start (decide (1 ≤ f))
            (fun b tk => rfs_fuel fs target_name f b (some start) tk) entries tick2

/-- `recursive_folder_search` (source lines 2320-2381): start-time
initialisation, budget check, depth check, `os.scandir`, then the entry
loop.  Returns the found path (if any) and the advanced tick counter. -/
def recursive_folder_search (fs : FS) (base_dir target_name : String)
    (max_depth current_depth : Nat) (startO : Option Nat) (tick : Nat) :
    Option String × Nat :=
  rfs_fuel fs target_name (max_depth - current_depth) base_dir startO tick

/-! ## Title extraction: `extract_directory_from_title` and helpers -/

/-- `search_locations` of `search_folder_by_name` (expanduser forms). -/
def search_locations (home : String) : List String :=
  [home, home ++ "/Documents", home ++ "/Documentos", home ++ "/Desktop",
   home ++ "/Escritorio", home ++ "/Downloads", home ++ "/Descargas"]

/-- First loop of `search_folder_by_name`: in each existing location, scan
`os.listdir` for a case-insensitive name match that is a directory
(`os.path.isdir`, following symlinks); a `PermissionError` on `listdir`
(modelled by `none`) skips the location. -/
def sfbn_direct (fs : FS) (folder_name : String) : List String → Option String
  | [] => none
  | base :: rest =>
    if fs.pathExists base then
      match fs.listdir base with
      | none => sfbn_direct fs folder_name rest
      | some items =>
        match items.find? (fun item =>
            strLower item == strLower folder_name && fs.isdir (base ++ "/" ++ item)) with
        | some item => some (base ++ "/" ++ item)
        | none => sfbn_direct fs folder_name rest
    else sfbn_direct fs folder_name rest

/-- Second loop of `search_folder_by_name`: a depth-2 recursive search in
the first three locations, each call with its own fresh start time; a
falsy (empty) result is not returned (`if found: return found`). -/
def sfbn_deep (fs : FS) (folder_name : String) :
    List String → Nat → Option String × Nat
  | [], tick => (none, tick)
  | base :: rest, tick =>
    if fs.pathExists base then
      match recursive_folder_search fs base folder_name 2 0 none tick with
      | (some f, tk) =>
        if f != "" then (some f, tk) else sfbn_deep fs folder_name rest tk
      | (none, tk) => sfbn_deep fs folder_name rest tk
    else sfbn_deep fs folder_name rest tick

/-- `search_folder_by_name` (source lines 2284-2318). -/
def search_folder_by_name (fs : FS) (folder_name : String) (tick : Nat) :
    Option String × Nat :=
  match sfbn_direct fs folder_name (search_locations fs.userHome) with
  | some p => (some p, tick)
  | none => sfbn_deep fs folder_name ((search_locations fs.userHome).take 3) tick

/-- `prefixes_to_remove` from `extract_directory_from_title`. -/
def prefixes_to_remove : List String :=
  ["Files", "Archivos", "File Manager", "Gestor de archivos"]

/-- One step of the prefix-removal loop of `extract_directory_from_title`. -/
def strip_prefix_step (t : String) (p : String) : String :=
  if strStarts t p then
    let r := pyStrip (strDropN t p.toList.length)
    if strStarts r "-" then pyStrip (strDropN r 1) else r
  else t

/-- Python `title.lstrip('✳ ')`. -/
def lstripGlyph (s : String) : String :=
  String.mk (s.toList.dropWhile (fun c => c = '✳' || c = ' '))

/-- `folder_mapping` from `extract_directory_from_title` (insertion order). -/
def folder_mapping : List (String × String) :=
  [("Documents", "Documents"), ("Documentos", "Documents"),
   ("Downloads", "Downloads"), ("Descargas", "Downloads"),
   ("Pictures", "Pictures"), ("Imágenes", "Pictures"),
   ("Music", "Music"), ("Música", "Music"),
   ("Videos", "Videos"), ("Vídeos", "Videos"),
   ("Desktop", "Desktop"), ("Escritorio", "Desktop"),
   ("Public", "Public"), ("Público", "Public"),
   ("Templates", "Templates"), ("Plantillas", "Templates")]

/-- The home-folder aliases of `extract_directory_from_title`. -/
def special_home_names : List String := ["carpeta personal", "home", "personal folder"]

/-- Split into maximal runs of non-whitespace characters (Python `\S+`). -/
def splitWordsAux : List Char → List Char → List String
  | [], acc => if acc.isEmpty then [] else [String.mk acc.reverse]
  | c :: cs, acc =>
    if pyIsSpace c then
      if acc.isEmpty then splitWordsAux cs []
      else String.mk acc.reverse :: splitWordsAux cs []
    else splitWordsAux cs (c :: acc)

def splitWords (s : String) : List String := splitWordsAux s.toList []

/-- Model of `re.findall(r'(/[^\s]+(?:/[^\s]*)*?)', s)`: for each
whitespace-delimited word, the suffix from its first slash, provided at
least one non-whitespace character follows that slash (the greedy
`[^\s]+` consumes the rest of the word, the lazy tail matches empty). -/
def findallPaths (s : String) : List String :=
  (splitWords s).filterMap (fun w =>
    match w.toList.dropWhile (fun c => c ≠ '/') with
    | [] => none
    | [_] => none
    | l => some (String.mk l))

/-- `extract_directory_from_title` (source lines 2203-2282): prefix and
glyph cleanup, the literal-path and path-pattern branches, the localized
folder-name mapping, the home-subdirectory check, and the bounded
recursive name search. -/
def extract_directory_from_title (fs : FS) (title : String) (tick : Nat) :
    Option String × Nat :=
  if title = "" then (none, tick)
  else
    let original_title := title
    let t1 := pyStrip title
    let t2 := prefixes_to_remove.foldl strip_prefix_step t1
    let t := pyStrip (lstripGlyph t2)
    if strStarts t "/" && fs.pathExists t then (some t, tick)
    else
      match (findallPaths original_title).find? (fun m => fs.pathExists m) with
      | some m => (some m, tick)
      | none =>
        if t != "" then
          let home := fs.userHome
          if special_home_names.contains (strLower t) then (some home, tick)
          else
            match folder_mapping.find? (fun dm =>
                strLower t == strLower dm.1 && fs.pathExists (home ++ "/" ++ dm.2)) with
            | some dm => (some (home ++ "/" ++ dm.2), tick)
            | none =>
              match folder_mapping.find? (fun dm =>
                  strContains (strLower t) (strLower dm.1)
                    && fs.pathExists (home ++ "/" ++ dm.2)) with
              | some dm => (some (home ++ "/" ++ dm.2), tick)
              | none =>
                if !containsChar t '/' && fs.pathExists (home ++ "/" ++ t) then
                  (some (home ++ "/" ++ t), tick)
                else if !containsChar t '/' && t != "org.gnome.Nautilus" && t != "Nautilus" then
                  match search_folder_by_name fs t tick with
                  | (some f, tk) => if f != "" then (some f, tk) else (none, tk)
                  | (none, tk) => (none, tk)
                else (none, tick)
        else (none, tick)

/-! ## Shared list lemmas -/

/-- The head surviving a `dropWhile` falsifies the predicate. -/
theorem dropWhile_head_false {p : Char → Bool} :
    ∀ (l : List Char) {c : Char} {cs : List Char},
      l.dropWhile p = c :: cs → p c = false := by
  intro l
  induction l with
  | nil => intro c cs h; simp at h
  | cons a t ih =>
    intro c cs h
    rw [List.dropWhile_cons] at h
    split at h
    · exact ih h
    · next hpa =>
      obtain ⟨rfl, rfl⟩ := List.cons.inj h
      simp only [Bool.not_eq_true] at hpa
      exact hpa

/-- Every element of a `takeWhile` satisfies the predicate. -/
theorem takeWhile_mem_sat {p : Char → Bool} :
    ∀ (l : List Char) {c : Char}, c ∈ l.takeWhile p → p c = true := by
  intro l
  induction l with
  | nil => intro c h; simp at h
  | cons a t ih =>
    intro c h
    rw [List.takeWhile_cons] at h
    split at h
    · rcases List.mem_cons.mp h with h1 | h1
      · subst h1; assumption
      · exact ih h1
    · simp at h

/-- `dropWhile` is the identity when no element satisfies the predicate. -/
theorem dropWhile_all_false {p : Char → Bool} :
    ∀ (l : List Char), (∀ x ∈ l, p x = false) → l.dropWhile p = l := by
  intro l h
  cases l with
  | nil => rfl
  | cons a t =>
    rw [List.dropWhile_cons, h a (List.mem_cons_self a t)]
    simp

/-! ## C2: the deny-list rejects before any filesystem access -/

/-- C2 as amended: for every candidate whose extracted token — the
stripped candidate, cut at the first whitespace only when a space
character is present, which is the token the validator computes — has a
deny-listed basename, `validate_editor_command` fails, on every
filesystem snapshot (hence independently of existence, executability,
and of any allow-listed substring elsewhere in the string).  Candidates
whose deny-listed first whitespace-delimited token is separated by
non-space whitespace are not covered: they are not split and can be
accepted (see the counterexample). -/
theorem c2_denylist_rejects (fs : FS) (cmd : String)
    (h : dangerous_commands.contains (basename (editor_token cmd)) = true) :
    validate_editor_command fs cmd = none := by
  unfold validate_editor_command validate_editor_token
  split
  · rfl
  · have hmem : basename (editor_token cmd) ∈ dangerous_commands := by simpa using h
    simp [hmem]

/-- Snapshot on which `rm` exists, is executable, and resolves in PATH. -/
def fsC2 : FS := { trivialFS with
  which := fun c => (if c == "rm" then some "/usr/bin/rm" else none),
  isfile := fun _ => true,
  accessX := fun _ => true,
  getuid := 1000,
  stUid := fun _ => 1000 }

/-- Snapshot on which a file literally named `bash<TAB>code` sits on the
executable search path (legal on Linux), resolving to a wrapper whose
path contains the allow-listed substring `code`. -/
def fsC2tab : FS := { trivialFS with
  which := fun c => (if c == "bash\tcode" then some "/opt/wrappers/bash-code" else none),
  isfile := fun p => p == "/opt/wrappers/bash-code",
  accessX := fun p => p == "/opt/wrappers/bash-code" }

/-- Counterexample to C2 as frozen: the candidate `bash<TAB>code` has the
deny-listed shell `bash` as the basename of its first whitespace-delimited
token, yet `validate_editor_command` accepts it: no space character occurs,
so the candidate is never split (`if ' ' in cmd`), its basename
`bash<TAB>code` escapes the deny-list, and the allow-listed substring
`code` in the resolved path rescues it. -/
theorem c2_counterexample :
    validate_editor_command fsC2tab "bash\tcode" = some "/opt/wrappers/bash-code"
    ∧ firstToken (pyStrip "bash\tcode") = "bash"
    ∧ dangerous_commands.contains (basename (firstToken (pyStrip "bash\tcode"))) = true := by
  decide

/-- Witness for the amended C2: `rm` is rejected although it exists and is
executable, and a path whose string contains the allow-listed editor name
`code` but whose basename is `bash` is rejected too. -/
theorem c2_denylist_rejects_witness :
    (dangerous_commands.contains (basename (editor_token "rm")) = true
      ∧ validate_editor_command fsC2 "rm" = none)
    ∧ validate_editor_command fsC2 "/opt/code/bash" = none :=
  ⟨⟨by decide, c2_denylist_rejects fsC2 "rm" (by decide)⟩,
    c2_denylist_rejects fsC2 "/opt/code/bash" (by decide)⟩

/-! ## C5: token extraction triggers on a space character only -/

/-- Snapshot on which a file literally named `vim<TAB>--remote` sits on the
executable search path (legal on Linux), while plain `vim` does not
resolve. -/
def fsC5 : FS := { trivialFS with
  which := fun c => (if c == "vim\t--remote" then some "/opt/editors/vimlauncher" else none),
  isfile := fun p => p == "/opt/editors/vimlauncher",
  accessX := fun p => p == "/opt/editors/vimlauncher" }

/-- Counterexample to C5: the candidate `vim<TAB>--remote` contains
whitespace, yet `validate_editor_command` does not restrict itself to the
substring before the whitespace boundary: it validates (and returns a
command for) the whole tab-containing string, embedded argument included,
while the first whitespace-delimited token `vim` alone validates to
nothing on this snapshot.  The source only splits when a space character
`' '` occurs (`if ' ' in cmd`). -/
theorem c5_counterexample :
    validate_editor_command fsC5 "vim\t--remote" = some "/opt/editors/vimlauncher"
    ∧ firstToken (pyStrip "vim\t--remote") = "vim"
    ∧ validate_editor_command fsC5 "vim" = none := by decide

/-- C5 as amended: whenever the stripped candidate contains a space
character, the validator behaves exactly as if it were given only the
first whitespace-delimited token; candidates whose only whitespace is not
a space (tab, newline, ...) are processed whole. -/
theorem c5_amended_first_token (fs : FS) (cmd : String)
    (h : containsChar (pyStrip cmd) ' ' = true) :
    validate_editor_command fs cmd
      = validate_editor_command fs (firstToken (pyStrip cmd)) := by
  have hcmd : cmd ≠ "" := by
    intro he
    rw [he] at h
    simp [containsChar, pyStrip] at h
  -- the stripped candidate starts with a non-space character
  obtain ⟨c, cs, hl⟩ : ∃ c cs, (pyStrip cmd).toList = c :: cs := by
    rcases he : (pyStrip cmd).toList with _ | ⟨c, cs⟩
    · rw [containsChar, he] at h
      simp at h
    · exact ⟨c, cs, rfl⟩
  have hc : pyIsSpace c = false := by
    have hidem : ((pyStrip cmd).toList).dropWhile pyIsSpace = (pyStrip cmd).toList := by
      have hdef : (pyStrip cmd).toList
          = List.dropWhile pyIsSpace ((cmd.toList.reverse.dropWhile pyIsSpace).reverse) := rfl
      rw [hdef, List.dropWhile_idempotent]
    rw [hl] at hidem
    exact dropWhile_head_false _ hidem
  -- the first token is nonempty and whitespace-free
  have htl : (firstToken (pyStrip cmd)).toList
      = c :: cs.takeWhile (fun x => !pyIsSpace x) := by
    show ((pyStrip cmd).toList.takeWhile (fun x => !pyIsSpace x)) = _
    rw [hl, List.takeWhile_cons]
    simp [hc]
  have hne : firstToken (pyStrip cmd) ≠ "" := by
    intro he
    have : (firstToken (pyStrip cmd)).toList = [] := by rw [he]; rfl
    rw [htl] at this
    exact List.cons_ne_nil _ _ this
  have hallnp : ∀ x ∈ (firstToken (pyStrip cmd)).toList, pyIsSpace x = false := by
    intro x hx
    have hx2 : x ∈ ((pyStrip cmd).toList).takeWhile (fun y => !pyIsSpace y) := hx
    have hsat := @takeWhile_mem_sat (fun y => !pyIsSpace y) ((pyStrip cmd).toList) x hx2
    simpa using hsat
  have hnospace : containsChar (firstToken (pyStrip cmd)) ' ' = false := by
    rw [containsChar]
    by_contra hcc
    simp only [Bool.not_eq_false] at hcc
    have hmem : ' ' ∈ (firstToken (pyStrip cmd)).toList := by simpa using hcc
    have hsp := hallnp ' ' hmem
    simp [pyIsSpace] at hsp
  have hstrip : pyStrip (firstToken (pyStrip cmd)) = firstToken (pyStrip cmd) := by
    have h1 : ((firstToken (pyStrip cmd)).toList.reverse.dropWhile pyIsSpace)
        = (firstToken (pyStrip cmd)).toList.reverse := by
      refine dropWhile_all_false _ ?_
      intro x hx
      exact hallnp x (List.mem_reverse.mp hx)
    have h2 : ((firstToken (pyStrip cmd)).toList.reverse.dropWhile pyIsSpace).reverse.dropWhile
        pyIsSpace = (firstToken (pyStrip cmd)).toList := by
      rw [h1, List.reverse_reverse]
      exact dropWhile_all_false _ hallnp
    show String.mk _ = _
    rw [h2]
    rfl
  have htok : editor_token cmd = firstToken (pyStrip cmd) := by
    rw [editor_token]
    simp only [h, if_true]
  have htok2 : editor_token (firstToken (pyStrip cmd)) = firstToken (pyStrip cmd) := by
    rw [editor_token]
    simp [hstrip, hnospace]
  rw [validate_editor_command, validate_editor_command, if_neg hcmd, if_neg hne, htok, htok2]

/-- Witness for the amended C5 at the spec's own scenario `code --wait`. -/
theorem c5_amended_first_token_witness :
    validate_editor_command fsC2 "code --wait" = validate_editor_command fsC2 "code" := by
  have h := c5_amended_first_token fsC2 "code --wait" (by decide)
  rw [h]
  have : firstToken (pyStrip "code --wait") = "code" := by decide
  rw [this]

/-! ## C3: the allow-list check on the home entry is a bare string prefix -/

/-- The allow rule as the spec states it: the resolved path is exactly an
allow-list root, or a descendant of one (a path extension past a slash).
Stated for the refinement comparison only; the source's rule differs on
the home entry. -/
def spec_allowed_dir (home rp : String) : Bool :=
  ([home, "/tmp", "/var/tmp", "/opt", "/usr/local", "/media", "/mnt"]).any
    (fun root => rp == root || strStarts rp (root ++ "/"))

/-- The allow rule as the source computes it, written out flatly: a bare
string prefix of the home directory (no separator required), the home
directory with trailing slashes removed, or a slash-terminated prefix /
exact match for the six fixed roots. -/
def code_allowed_dir (home rp : String) : Prop :=
  strStarts rp home = true ∨ rp = pyRstripSlash home
    ∨ rp = "/tmp" ∨ strStarts rp "/tmp/" = true
    ∨ rp = "/var/tmp" ∨ strStarts rp "/var/tmp/" = true
    ∨ rp = "/opt" ∨ strStarts rp "/opt/" = true
    ∨ rp = "/usr/local" ∨ strStarts rp "/usr/local/" = true
    ∨ rp = "/media" ∨ strStarts rp "/media/" = true
    ∨ rp = "/mnt" ∨ strStarts rp "/mnt/" = true

instance (home rp : String) : Decidable (code_allowed_dir home rp) := by
  unfold code_allowed_dir
  infer_instance

/-- The source's `any` over `allowed_prefixes` is exactly `code_allowed_dir`. -/
theorem allowed_roots_any_iff (home rp : String) :
    ((allowed_roots home).any
        (fun root => strStarts rp root || rp = pyRstripSlash root) = true)
    ↔ code_allowed_dir home rp := by
  have e1 : pyRstripSlash "/tmp/" = "/tmp" := by decide
  have e2 : pyRstripSlash "/var/tmp/" = "/var/tmp" := by decide
  have e3 : pyRstripSlash "/opt/" = "/opt" := by decide
  have e4 : pyRstripSlash "/usr/local/" = "/usr/local" := by decide
  have e5 : pyRstripSlash "/media/" = "/media" := by decide
  have e6 : pyRstripSlash "/mnt/" = "/mnt" := by decide
  simp only [allowed_roots, code_allowed_dir, List.any_cons, List.any_nil,
    Bool.or_eq_true, decide_eq_true_eq, e1, e2, e3, e4, e5, e6, Bool.or_false]
  tauto

/-- Snapshot with home `/home/user` and an existing readable directory at
the sibling path `/home/userevil`. -/
def fsC3 : FS := { trivialFS with
  isdir := fun p => p == "/home/userevil",
  readable := fun _ => true }

/-- Counterexample to C3: `/home/userevil` is not the home directory
`/home/user`, is not a descendant of it or of any other allow-list root,
and is not a forbidden directory — yet `validate_directory` accepts it,
because the home-entry check is `startswith` on the bare home string. -/
theorem c3_counterexample :
    validate_directory fsC3 "/home/userevil" = some "/home/userevil"
    ∧ spec_allowed_dir "/home/user" "/home/userevil" = false
    ∧ forbidden_dirs.contains "/home/userevil" = false := by decide

/-- C3 as amended: `validate_directory` succeeds only when the resolved
path satisfies the source's allow rule — a bare string prefix of the home
directory (which also admits sibling directories whose name extends the
home directory's name), or an exact match / slash-descendant of /tmp,
/var/tmp, /opt, /usr/local, /media, /mnt — and fails (default-deny) on
every path outside that rule. -/
theorem c3_amended_default_deny (fs : FS) (p rp : String) :
    (validate_directory fs p = some rp → code_allowed_dir fs.userHome rp)
    ∧ (¬ code_allowed_dir fs.userHome (fs.realpath p) →
        validate_directory fs p = none) := by
  constructor
  · intro h
    unfold validate_directory at h
    split at h
    · exact absurd h (by simp)
    · simp only at h
      split at h
      · exact absurd h (by simp)
      · split at h
        · exact absurd h (by simp)
        · split at h
          · exact absurd h (by simp)
          · split at h
            · next hcond =>
              have hrp : fs.realpath p = rp := by simpa using h
              subst hrp
              exact (allowed_roots_any_iff fs.userHome (fs.realpath p)).mp hcond
            · exact absurd h (by simp)
  · intro hna
    unfold validate_directory
    split
    · rfl
    · simp only
      split
      · rfl
      · split
        · rfl
        · split
          · rfl
          · split
            · next hcond =>
              exact absurd ((allowed_roots_any_iff fs.userHome (fs.realpath p)).mp hcond) hna
            · rfl

/-- Snapshot for the default-deny direction of the C3 witness. -/
def fsC3b : FS := { trivialFS with
  isdir := fun _ => true,
  readable := fun _ => true }

/-- Witness for the amended C3: the accepted sibling path satisfies the
source's allow rule, and `/srv/data` (outside every allow root, not
forbidden) is denied. -/
theorem c3_amended_default_deny_witness :
    code_allowed_dir "/home/user" "/home/userevil"
    ∧ validate_directory fsC3b "/srv/data" = none :=
  ⟨(c3_amended_default_deny fsC3 "/home/userevil" "/home/userevil").1 (by decide),
   (c3_amended_default_deny fsC3b "/srv/data" "/srv/data").2 (by decide)⟩

/-! ## C4: the forbidden-directory check is an exact match -/

/-- Snapshot running as root (home `/root`), where the benign-looking
candidate `/home/user/cfg` is a symlink resolving to `/etc`, and every
path is an existing readable directory. -/
def fsC4 : FS := { trivialFS with
  realpath := fun p => (if p == "/home/user/cfg" then "/etc" else p),
  isdir := fun _ => true,
  readable := fun _ => true,
  userHome := "/root" }

/-- C4: whenever the resolved path is exactly one of the forbidden system
directories, `validate_directory` fails, whatever the unresolved candidate
looked like; and the check is exact-match only — on the `fsC4` snapshot the
strict subdirectory `/root/project` of the forbidden directory `/root` is
accepted (it lies under the allow-listed home). -/
theorem c4_forbidden_exact (fs : FS) (p : String)
    (h : forbidden_dirs.contains (fs.realpath p) = true) :
    validate_directory fs p = none
    ∧ validate_directory fsC4 "/root/project" = some "/root/project" := by
  constructor
  · unfold validate_directory
    split
    · rfl
    · simp only
      split
      · rfl
      · split <;> rfl
  · decide

/-- Witness for C4: the symlinked candidate `/home/user/cfg` resolves to
`/etc` and is rejected, while `/root/project` is accepted. -/
theorem c4_forbidden_exact_witness :
    validate_directory fsC4 "/home/user/cfg" = none
    ∧ validate_directory fsC4 "/root/project" = some "/root/project" :=
  c4_forbidden_exact fsC4 "/home/user/cfg" (by decide)

/-! ## C10: validate_directory is deterministic and idempotent -/

/-- C10: with the snapshot unchanged, a second call on the same candidate
returns the same result (the embedding is a pure function of the snapshot,
mirroring that the source only reads filesystem metadata and mutates no
program state), and re-validating a successful result returns that result
unchanged, given that `os.path.realpath` is idempotent on the snapshot and
the result is a nonempty string. -/
theorem c10_idempotent (fs : FS) (p rp : String)
    (hreal : ∀ q, fs.realpath (fs.realpath q) = fs.realpath q)
    (hne : rp ≠ "")
    (h : validate_directory fs p = some rp) :
    validate_directory fs p = validate_directory fs p
    ∧ validate_directory fs rp = some rp := by
  refine ⟨rfl, ?_⟩
  unfold validate_directory at h
  split at h
  · exact absurd h (by simp)
  · simp only at h
    split at h
    · exact absurd h (by simp)
    · next hisdir =>
      split at h
      · exact absurd h (by simp)
      · next hread =>
        split at h
        · exact absurd h (by simp)
        · next hforb =>
          split at h
          · next hallow =>
            have hrp : fs.realpath p = rp := by simpa using h
            unfold validate_directory
            rw [if_neg hne]
            simp only
            rw [hrp] at hisdir hread hforb hallow
            have hrr : fs.realpath rp = rp := by
              have e : fs.realpath rp = fs.realpath (fs.realpath p) := by rw [hrp]
              rw [e, hreal]
              exact hrp
            rw [hrr]
            rw [if_neg hisdir, if_neg hread, if_neg hforb, if_pos hallow]
          · exact absurd h (by simp)

/-- Witness for C10 on a concrete snapshot with an idempotent `realpath`:
revalidating the successful result returns it unchanged. -/
theorem c10_idempotent_witness :
    validate_directory fsC3 "/home/userevil" = validate_directory fsC3 "/home/userevil"
    ∧ validate_directory fsC3 "/home/userevil" = some "/home/userevil" :=
  c10_idempotent fsC3 "/home/userevil" "/home/userevil" (fun _ => rfl)
    (by decide) (by decide)

/-! ## C1: which values reach the process launcher -/

/-- Snapshot on which `/usr/bin/code` exists and is executable, `/etc` is
an existing readable directory, no bare name resolves in PATH, and
`Popen` succeeds. -/
def fsC1 : FS := { trivialFS with
  isdir := fun p => p == "/etc",
  readable := fun _ => true,
  isfile := fun p => p == "/usr/bin/code",
  accessX := fun p => p == "/usr/bin/code",
  popenOk := fun _ => true }

/-- Counterexample to C1: with the current directory `/etc`, the fallback
`try_open_with_common_editors` hands the launcher the pair
`("/usr/bin/code", "/etc")` although `validate_directory` rejects `/etc`
(and would reject it on every snapshot: `/etc` is a forbidden directory);
the fallback never calls either validator. -/
theorem c1_counterexample :
    try_open_with_common_editors fsC1 "/etc" = some ("/usr/bin/code", "/etc")
    ∧ validate_directory fsC1 "/etc" = none := by decide

/-- The fallback loop only launches list candidates, with the caller's
directory passed through unvalidated. -/
theorem try_common_go_mem (fs : FS) (dir : String) :
    ∀ (l : List String) (c d : String),
      try_common_go fs dir l = some (c, d) → c ∈ l ∧ d = dir := by
  intro l
  induction l with
  | nil => intro c d h; simp [try_common_go] at h
  | cons cmd rest ih =>
    intro c d h
    rw [try_common_go] at h
    by_cases h1 : (if strStarts cmd "/" then fs.isfile cmd && fs.accessX cmd
        else (fs.which cmd).isSome) = true
    · rw [if_pos h1] at h
      by_cases h2 : fs.popenOk cmd = true
      · rw [if_pos h2] at h
        obtain ⟨rfl, rfl⟩ := Prod.mk.inj (Option.some.inj h)
        exact ⟨List.mem_cons_self _ _, rfl⟩
      · rw [if_neg h2] at h
        obtain ⟨hm, hd⟩ := ih c d h
        exact ⟨List.mem_cons_of_mem _ hm, hd⟩
    · rw [if_neg h1] at h
      obtain ⟨hm, hd⟩ := ih c d h
      exact ⟨List.mem_cons_of_mem _ hm, hd⟩

/-- C1 as amended: in `try_open_with_editor`, every launch receives
exactly the validators' outputs; in the fallback
`try_open_with_common_editors`, the launched command comes from the fixed
hard-coded candidate list (checked only for existence/executability, not
through `validate_editor_command`) and the directory is the caller's
current directory, passed through unvalidated. -/
theorem c1_amended_launch_values (fs : FS) (ed dir c vc d vd : String) :
    (try_open_with_editor fs ed dir = some (vc, vd) →
      validate_editor_command fs ed = some vc ∧ validate_directory fs dir = some vd)
    ∧ (try_open_with_common_editors fs dir = some (c, d) →
      c ∈ vscode_commands fs.userHome ∧ d = dir) := by
  constructor
  · intro h
    unfold try_open_with_editor at h
    rcases he : validate_editor_command fs ed with _ | v
    · rw [he] at h; simp at h
    · rw [he] at h
      rcases hd : validate_directory fs dir with _ | w
      · rw [hd] at h; simp at h
      · rw [hd] at h
        simp only [Option.some.injEq] at h
        obtain ⟨rfl, rfl⟩ := Prod.mk.inj h
        exact ⟨rfl, rfl⟩
  · intro h
    exact try_common_go_mem fs dir (vscode_commands fs.userHome) c d h

/-- Snapshot on which the configured editor and the current directory both
validate, for the witness's first conjunct. -/
def fsC1b : FS := { trivialFS with
  isdir := fun p => p == "/home/user/proj",
  readable := fun _ => true,
  isfile := fun p => p == "/usr/bin/code",
  accessX := fun p => p == "/usr/bin/code",
  which := fun cn => (if cn == "code" then some "/usr/bin/code" else none) }

/-- Witness for the amended C1: a validated launch on `fsC1b` and the
unvalidated fallback launch of the counterexample snapshot. -/
theorem c1_amended_launch_values_witness :
    (validate_editor_command fsC1b "code" = some "/usr/bin/code"
      ∧ validate_directory fsC1b "/home/user/proj" = some "/home/user/proj")
    ∧ ("/usr/bin/code" ∈ vscode_commands fsC1.userHome ∧ "/etc" = "/etc") :=
  ⟨(c1_amended_launch_values fsC1b "code" "/home/user/proj" "x" "/usr/bin/code"
      "y" "/home/user/proj").1 (by decide),
   (c1_amended_launch_values fsC1 "e" "/etc" "/usr/bin/code" "v" "/etc" "w").2 (by decide)⟩

/-! ## C6: fixed strategy order with short-circuit -/

/-- C6: the resolver consults DBus, then the active window, then the
fallback, in that order; a strategy's accepted (validated) result is
returned with the later strategies never consulted (the result does not
depend on them); only when the earlier strategies yield nothing does the
next one decide. -/
theorem c6_priority_order (fs : FS) (env : ResolveEnv) (d : String) :
    (acceptResult fs env.dbus = some d →
      ∀ aw fb, get_nautilus_directory_multiple_methods fs
        { dbus := env.dbus, activeWindow := aw, fallback := fb } = some d)
    ∧ (acceptResult fs env.dbus = none → acceptResult fs env.activeWindow = some d →
      ∀ fb, get_nautilus_directory_multiple_methods fs
        { dbus := env.dbus, activeWindow := env.activeWindow, fallback := fb } = some d)
    ∧ (acceptResult fs env.dbus = none → acceptResult fs env.activeWindow = none →
      get_nautilus_directory_multiple_methods fs env = acceptResult fs env.fallback) := by
  refine ⟨?_, ?_, ?_⟩
  · intro h aw fb
    unfold get_nautilus_directory_multiple_methods
    simp only [h]
  · intro h1 h2 fb
    unfold get_nautilus_directory_multiple_methods
    simp only [h1, h2]
  · intro h1 h2
    unfold get_nautilus_directory_multiple_methods
    rw [h1, h2]
    rcases acceptResult fs env.fallback with _ | v <;> rfl

/-- Snapshot/environment for the C6 witness: DBus yields an existing
directory; the other strategies raise. -/
def fsC6 : FS := { trivialFS with pathExists := fun p => p == "/tmp/work" }

/-- Witness for C6: the DBus result is returned however the later
strategies behave (here: both raising). -/
theorem c6_priority_order_witness :
    get_nautilus_directory_multiple_methods fsC6
      { dbus := .ok (some "/tmp/work"), activeWindow := .exc, fallback := .exc }
      = some "/tmp/work" :=
  (c6_priority_order fsC6
      { dbus := .ok (some "/tmp/work"), activeWindow := .exc, fallback := .exc }
      "/tmp/work").1 (by decide) .exc .exc

/-! ## C8: strategy failures are isolated; none when and only when all fail -/

/-- C8: a raising strategy is indistinguishable from one returning
nothing (its failure only eliminates that candidate), the resolver itself
never raises (it is a total function into an option), and it returns
nothing exactly when every strategy fails to produce an accepted result. -/
theorem c8_failure_isolation (fs : FS) (env : ResolveEnv) :
    (get_nautilus_directory_multiple_methods fs
        { dbus := .exc, activeWindow := env.activeWindow, fallback := env.fallback }
      = get_nautilus_directory_multiple_methods fs
        { dbus := .ok none, activeWindow := env.activeWindow, fallback := env.fallback })
    ∧ (get_nautilus_directory_multiple_methods fs
        { dbus := env.dbus, activeWindow := .exc, fallback := env.fallback }
      = get_nautilus_directory_multiple_methods fs
        { dbus := env.dbus, activeWindow := .ok none, fallback := env.fallback })
    ∧ (get_nautilus_directory_multiple_methods fs
        { dbus := env.dbus, activeWindow := env.activeWindow, fallback := .exc }
      = get_nautilus_directory_multiple_methods fs
        { dbus := env.dbus, activeWindow := env.activeWindow, fallback := .ok none })
    ∧ (get_nautilus_directory_multiple_methods fs env = none ↔
        acceptResult fs env.dbus = none ∧ acceptResult fs env.activeWindow = none
          ∧ acceptResult fs env.fallback = none) := by
  refine ⟨rfl, ?_, ?_, ?_⟩
  · unfold get_nautilus_directory_multiple_methods
    rcases acceptResult fs env.dbus with _ | v <;> rfl
  · unfold get_nautilus_directory_multiple_methods
    rcases acceptResult fs env.dbus with _ | v
    · rcases acceptResult fs env.activeWindow with _ | w <;> rfl
    · rfl
  · unfold get_nautilus_directory_multiple_methods
    rcases h1 : acceptResult fs env.dbus with _ | v
    · rcases h2 : acceptResult fs env.activeWindow with _ | w
      · rcases h3 : acceptResult fs env.fallback with _ | u
        · simp
        · simp
      · simp
    · simp

/-- Witness for C8 on a concrete environment where all strategies fail
(two raise, the DBus result does not exist on disk): the resolver returns
nothing rather than raising. -/
theorem c8_failure_isolation_witness :
    get_nautilus_directory_multiple_methods fsC6
      { dbus := .ok (some "/gone"), activeWindow := .exc, fallback := .exc } = none :=
  (c8_failure_isolation fsC6
      { dbus := .ok (some "/gone"), activeWindow := .exc, fallback := .exc }).2.2.2.mpr
    (by decide)

/-! ## C7: acceptance checks existence, not directoryhood -/

/-- Snapshot on which `/home/user/notes.txt` exists but is a regular file,
not a directory. -/
def fsC7 : FS := { trivialFS with
  pathExists := fun p => p == "/home/user/notes.txt",
  isfile := fun p => p == "/home/user/notes.txt",
  isdir := fun _ => false }

/-- Environment in which the active-window strategy reports the existing
regular file `/home/user/notes.txt`. -/
def envC7 : ResolveEnv where
  dbus := .ok none
  activeWindow := .ok (some "/home/user/notes.txt")
  fallback := .ok none

/-- Counterexample to C7: the acceptance test of the resolver loop is
`os.path.exists`, not `os.path.isdir`: an active-window strategy result
that is an existing regular file is accepted as the resolved directory;
and the title-extraction helper (source lines 2224-2226) produces exactly
such results, returning any existing path that starts with a slash
without checking that it is a directory. -/
theorem c7_counterexample :
    get_nautilus_directory_multiple_methods fsC7 envC7 = some "/home/user/notes.txt"
    ∧ fsC7.isdir "/home/user/notes.txt" = false
    ∧ extract_directory_from_title fsC7 "/home/user/notes.txt" 0
        = (some "/home/user/notes.txt", 0) := by decide

/-- C7 as amended: every accepted result is a nonempty string that exists
on the filesystem at acceptance time (`os.path.exists`) and stems from one
of the three strategies; existence does not imply being a directory, and a
non-existing strategy result is rejected with the resolver moving on. -/
theorem c7_amended_accept_exists (fs : FS) (env : ResolveEnv) (d : String)
    (h : get_nautilus_directory_multiple_methods fs env = some d) :
    fs.pathExists d = true ∧ d ≠ ""
    ∧ (env.dbus = .ok (some d) ∨ env.activeWindow = .ok (some d)
        ∨ env.fallback = .ok (some d)) := by
  have hacc : ∀ r : StratResult, acceptResult fs r = some d →
      fs.pathExists d = true ∧ d ≠ "" ∧ r = .ok (some d) := by
    intro r hr
    rcases r with _ | _ | v
    · simp [acceptResult] at hr
    · simp [acceptResult] at hr
    · simp only [acceptResult] at hr
      split at hr
      · next hcond =>
        obtain rfl : v = d := Option.some.inj hr
        simp only [Bool.and_eq_true, bne_iff_ne, ne_eq] at hcond
        exact ⟨hcond.2, hcond.1, rfl⟩
      · exact absurd hr (by simp)
  unfold get_nautilus_directory_multiple_methods at h
  rcases h1 : acceptResult fs env.dbus with _ | v
  · rw [h1] at h
    rcases h2 : acceptResult fs env.activeWindow with _ | w
    · rw [h2] at h
      rcases h3 : acceptResult fs env.fallback with _ | u
      · rw [h3] at h; simp at h
      · rw [h3] at h
        obtain rfl : u = d := Option.some.inj h
        obtain ⟨he, hn, hr⟩ := hacc _ h3
        exact ⟨he, hn, Or.inr (Or.inr hr)⟩
    · rw [h2] at h
      obtain rfl : w = d := Option.some.inj h
      obtain ⟨he, hn, hr⟩ := hacc _ h2
      exact ⟨he, hn, Or.inr (Or.inl hr)⟩
  · rw [h1] at h
    obtain rfl : v = d := Option.some.inj h
    obtain ⟨he, hn, hr⟩ := hacc _ h1
    exact ⟨he, hn, Or.inl hr⟩

/-- Witness for the amended C7, applied at the counterexample input. -/
theorem c7_amended_accept_exists_witness :
    fsC7.pathExists "/home/user/notes.txt" = true ∧ "/home/user/notes.txt" ≠ ""
    ∧ (envC7.dbus = .ok (some "/home/user/notes.txt")
        ∨ envC7.activeWindow = .ok (some "/home/user/notes.txt")
        ∨ envC7.fallback = .ok (some "/home/user/notes.txt")) :=
  c7_amended_accept_exists fsC7 envC7 "/home/user/notes.txt" (by decide)

/-! ## C9: the recursive name search is depth-bounded, symlink-free and
budget-limited

The shape lemmas below show that any found path lies at most two levels
below the search root and that every directory descended into was
confirmed a directory by `entry.is_dir(follow_symlinks=False)` — i.e.
symlinked directories are never followed, which is what makes cycles
harmless; the embedding itself is structurally recursive on the remaining
depth, mirroring why the source terminates. -/

/-- Loop shape when recursion is disabled (`current_depth = max_depth - 1`):
a found path is a direct, non-hidden, non-excluded, case-insensitive match
among the scanned entries. -/
theorem rfs_loop_no_recurse_shape (fs : FS) (b tgt : String) (start : Nat)
    (recur : String → Nat → Option String × Nat) :
    ∀ (entries : List DirEntry) (tick tk : Nat) (p : String),
      rfs_loop fs b tgt start false recur entries tick = (some p, tk) →
      ∃ e ∈ entries, e.isDirRes = some true ∧ strLower e.name = strLower tgt
        ∧ p = b ++ "/" ++ e.name := by
  intro entries
  induction entries with
  | nil =>
    intro tick tk p h
    rw [rfs_loop] at h
    simp at h
  | cons e rest ih =>
    intro tick tk p h
    rw [rfs_loop] at h
    by_cases ht : 2000 < fs.now tick - start
    · rw [if_pos ht] at h
      simp at h
    · rw [if_neg ht] at h
      rcases hd : e.isDirRes with _ | bv
      · rw [hd] at h
        obtain ⟨e2, hm, hrest⟩ := ih _ _ _ h
        exact ⟨e2, List.mem_cons_of_mem _ hm, hrest⟩
      · cases bv with
        | false =>
          rw [hd] at h
          obtain ⟨e2, hm, hrest⟩ := ih _ _ _ h
          exact ⟨e2, List.mem_cons_of_mem _ hm, hrest⟩
        | true =>
          rw [hd] at h
          by_cases hskip : (strStarts e.name "." || excluded_dirs.contains e.name) = true
          · rw [if_pos hskip] at h
            obtain ⟨e2, hm, hrest⟩ := ih _ _ _ h
            exact ⟨e2, List.mem_cons_of_mem _ hm, hrest⟩
          · rw [if_neg hskip] at h
            by_cases hmatch : strLower e.name = strLower tgt
            · rw [if_pos hmatch] at h
              obtain ⟨hp, _⟩ := Prod.mk.inj h
              exact ⟨e, List.mem_cons_self _ _, hd, hmatch, (Option.some.inj hp).symm⟩
            · rw [if_neg hmatch, if_neg Bool.false_ne_true] at h
              obtain ⟨e2, hm, hrest⟩ := ih _ _ _ h
              exact ⟨e2, List.mem_cons_of_mem _ hm, hrest⟩

/-- One level of remaining depth: a found path is a direct match among the
entries of the scanned base directory. -/
theorem rfs_fuel_one_shape (fs : FS) (tgt b : String) (start tick tk : Nat)
    (p : String)
    (h : rfs_fuel fs tgt 1 b (some start) tick = (some p, tk)) :
    ∃ e ∈ (fs.scandir b).getD [], e.isDirRes = some true
      ∧ strLower e.name = strLower tgt ∧ p = b ++ "/" ++ e.name := by
  rw [rfs_fuel] at h
  by_cases ht : 2000 < fs.now tick - start
  · rw [if_pos ht] at h
    simp at h
  · rw [if_neg ht] at h
    rcases hs : fs.scandir b with _ | entries
    · rw [hs] at h
      simp at h
    · rw [hs] at h
      have hcr : (decide (1 ≤ 0)) = false := rfl
      rw [hcr] at h
      obtain ⟨e, hm, hrest⟩ := rfs_loop_no_recurse_shape fs b tgt start _ entries _ _ _ h
      exact ⟨e, by simpa using hm, hrest⟩

/-- Loop shape at the top level (recursion enabled into depth-one
searches): a found path is either a direct match or a match one level
deeper, reached through an entry confirmed to be a non-symlink directory. -/
theorem rfs_loop_recurse_shape (fs : FS) (b tgt : String) (start : Nat) :
    ∀ (entries : List DirEntry) (tick tk : Nat) (p : String),
      rfs_loop fs b tgt start true
        (fun b2 tk2 => rfs_fuel fs tgt 1 b2 (some start) tk2) entries tick
        = (some p, tk) →
      (∃ e ∈ entries, e.isDirRes = some true ∧ strLower e.name = strLower tgt
          ∧ p = b ++ "/" ++ e.name)
      ∨ (∃ e ∈ entries, e.isDirRes = some true
          ∧ ∃ e2 ∈ (fs.scandir (b ++ "/" ++ e.name)).getD [],
            e2.isDirRes = some true ∧ strLower e2.name = strLower tgt
            ∧ p = b ++ "/" ++ e.name ++ "/" ++ e2.name) := by
  intro entries
  induction entries with
  | nil =>
    intro tick tk p h
    rw [rfs_loop] at h
    simp at h
  | cons e rest ih =>
    intro tick tk p h
    rw [rfs_loop] at h
    by_cases ht : 2000 < fs.now tick - start
    · rw [if_pos ht] at h
      simp at h
    · rw [if_neg ht] at h
      rcases hd : e.isDirRes with _ | bv
      · rw [hd] at h
        rcases ih _ _ _ h with ⟨e2, hm, hrest⟩ | ⟨e2, hm, hrest⟩
        · exact Or.inl ⟨e2, List.mem_cons_of_mem _ hm, hrest⟩
        · exact Or.inr ⟨e2, List.mem_cons_of_mem _ hm, hrest⟩
      · cases bv with
        | false =>
          rw [hd] at h
          rcases ih _ _ _ h with ⟨e2, hm, hrest⟩ | ⟨e2, hm, hrest⟩
          · exact Or.inl ⟨e2, List.mem_cons_of_mem _ hm, hrest⟩
          · exact Or.inr ⟨e2, List.mem_cons_of_mem _ hm, hrest⟩
        | true =>
          rw [hd] at h
          by_cases hskip : (strStarts e.name "." || excluded_dirs.contains e.name) = true
          · rw [if_pos hskip] at h
            rcases ih _ _ _ h with ⟨e2, hm, hrest⟩ | ⟨e2, hm, hrest⟩
            · exact Or.inl ⟨e2, List.mem_cons_of_mem _ hm, hrest⟩
            · exact Or.inr ⟨e2, List.mem_cons_of_mem _ hm, hrest⟩
          · rw [if_neg hskip] at h
            by_cases hmatch : strLower e.name = strLower tgt
            · rw [if_pos hmatch] at h
              obtain ⟨hp, _⟩ := Prod.mk.inj h
              exact Or.inl ⟨e, List.mem_cons_self _ _, hd, hmatch,
                (Option.some.inj hp).symm⟩
            · rw [if_neg hmatch, if_pos rfl] at h
              rcases hr : rfs_fuel fs tgt 1 (b ++ "/" ++ e.name) (some start) (tick + 1)
                with ⟨ores, tk2⟩
              rw [hr] at h
              rcases ores with _ | r
              · rcases ih _ _ _ h with ⟨e2, hm, hrest⟩ | ⟨e2, hm, hrest⟩
                · exact Or.inl ⟨e2, List.mem_cons_of_mem _ hm, hrest⟩
                · exact Or.inr ⟨e2, List.mem_cons_of_mem _ hm, hrest⟩
              · obtain ⟨hp, _⟩ := Prod.mk.inj h
                obtain rfl : r = p := Option.some.inj hp
                obtain ⟨e2, hm2, hdir2, hmatch2, hp2⟩ :=
                  rfs_fuel_one_shape fs tgt (b ++ "/" ++ e.name) start (tick + 1) tk2 r hr
                exact Or.inr ⟨e, List.mem_cons_self _ _, hd,
                  e2, hm2, hdir2, hmatch2, by rw [hp2]⟩

/-- The depth-one loop never consults its recursion argument: its result
is the same for any two snapshots with the same clock. -/
theorem rfs_loop_frame_no_recurse (fs fs2 : FS) (hnow : fs.now = fs2.now)
    (b tgt : String) (start : Nat)
    (recur recur2 : String → Nat → Option String × Nat) :
    ∀ (entries : List DirEntry) (tick : Nat),
      rfs_loop fs b tgt start false recur entries tick
        = rfs_loop fs2 b tgt start false recur2 entries tick := by
  intro entries
  induction entries with
  | nil => intro tick; rw [rfs_loop, rfs_loop]
  | cons e rest ih =>
    intro tick
    rw [rfs_loop, rfs_loop, hnow]
    by_cases ht : 2000 < fs2.now tick - start
    · rw [if_pos ht, if_pos ht]
    · rw [if_neg ht, if_neg ht]
      rcases e.isDirRes with _ | bv
      · exact ih _
      · cases bv with
        | false => exact ih _
        | true =>
          by_cases hskip : (strStarts e.name "." || excluded_dirs.contains e.name) = true
          · rw [if_pos hskip, if_pos hskip]
            exact ih _
          · rw [if_neg hskip, if_neg hskip]
            by_cases hmatch : strLower e.name = strLower tgt
            · rw [if_pos hmatch, if_pos hmatch]
            · rw [if_neg hmatch, if_neg hmatch,
                if_neg Bool.false_ne_true, if_neg Bool.false_ne_true]
              exact ih _

/-- A depth-one search reads only the clock and the listing of its base
directory. -/
theorem rfs_fuel_one_frame (fs fs2 : FS) (hnow : fs.now = fs2.now)
    (tgt b : String) (hs : fs.scandir b = fs2.scandir b) (start tick : Nat) :
    rfs_fuel fs tgt 1 b (some start) tick = rfs_fuel fs2 tgt 1 b (some start) tick := by
  rw [rfs_fuel, rfs_fuel, hnow, hs]
  by_cases ht : 2000 < fs2.now tick - start
  · rw [if_pos ht, if_pos ht]
  · rw [if_neg ht, if_neg ht]
    rcases fs2.scandir b with _ | entries
    · rfl
    · exact rfs_loop_frame_no_recurse fs fs2 hnow b tgt start _ _ entries _

/-- The top-level loop reads only the clock and the listings of the entries
it was given: snapshots agreeing there give the same result. -/
theorem rfs_loop_frame_recurse (fs fs2 : FS) (hnow : fs.now = fs2.now)
    (b tgt : String) (start : Nat) :
    ∀ (entries : List DirEntry),
      (∀ e ∈ entries, fs.scandir (b ++ "/" ++ e.name) = fs2.scandir (b ++ "/" ++ e.name)) →
      ∀ (tick : Nat),
      rfs_loop fs b tgt start true
          (fun b2 tk2 => rfs_fuel fs tgt 1 b2 (some start) tk2) entries tick
        = rfs_loop fs2 b tgt start true
          (fun b2 tk2 => rfs_fuel fs2 tgt 1 b2 (some start) tk2) entries tick := by
  intro entries
  induction entries with
  | nil => intro _ tick; rw [rfs_loop, rfs_loop]
  | cons e rest ih =>
    intro hsub tick
    have hsubrest : ∀ e2 ∈ rest,
        fs.scandir (b ++ "/" ++ e2.name) = fs2.scandir (b ++ "/" ++ e2.name) :=
      fun e2 hm => hsub e2 (List.mem_cons_of_mem _ hm)
    rw [rfs_loop, rfs_loop, hnow]
    by_cases ht : 2000 < fs2.now tick - start
    · rw [if_pos ht, if_pos ht]
    · rw [if_neg ht, if_neg ht]
      rcases e.isDirRes with _ | bv
      · exact ih hsubrest _
      · cases bv with
        | false => exact ih hsubrest _
        | true =>
          by_cases hskip : (strStarts e.name "." || excluded_dirs.contains e.name) = true
          · rw [if_pos hskip, if_pos hskip]
            exact ih hsubrest _
          · rw [if_neg hskip, if_neg hskip]
            by_cases hmatch : strLower e.name = strLower tgt
            · rw [if_pos hmatch, if_pos hmatch]
            · rw [if_neg hmatch, if_neg hmatch, if_pos rfl, if_pos rfl]
              have hr := rfs_fuel_one_frame fs fs2 hnow tgt (b ++ "/" ++ e.name)
                (hsub e (List.mem_cons_self _ _)) start (tick + 1)
              rw [hr]
              rcases rfs_fuel fs2 tgt 1 (b ++ "/" ++ e.name) (some start) (tick + 1)
                with ⟨ores, tk2⟩
              rcases ores with _ | r
              · exact ih hsubrest _
              · rfl

/-- C9: a `recursive_folder_search` call as issued by
`search_folder_by_name` (`max_depth = 2`, fresh start time) terminates by
construction (the embedding recurses structurally on the remaining
depth), never descends more than two levels below the search root — any
found path is `root/x` or `root/x/y` where every traversed entry was
confirmed a directory by `entry.is_dir(follow_symlinks=False)`, so
symlinked directories are never followed and cycles cannot occur — and
once the 2-second wall-clock budget is already exceeded at the first
check, it abandons the search and returns not-found. -/
theorem c9_search_depth_and_budget (fs : FS) (base tgt : String) (tick : Nat) :
    (∀ (p : String) (tk : Nat),
      recursive_folder_search fs base tgt 2 0 none tick = (some p, tk) →
      (∃ e ∈ (fs.scandir base).getD [], e.isDirRes = some true
          ∧ strLower e.name = strLower tgt ∧ p = base ++ "/" ++ e.name)
      ∨ (∃ e ∈ (fs.scandir base).getD [], e.isDirRes = some true
          ∧ ∃ e2 ∈ (fs.scandir (base ++ "/" ++ e.name)).getD [],
            e2.isDirRes = some true ∧ strLower e2.name = strLower tgt
            ∧ p = base ++ "/" ++ e.name ++ "/" ++ e2.name))
    ∧ (2000 < fs.now (tick + 1) - fs.now tick →
        recursive_folder_search fs base tgt 2 0 none tick = (none, tick + 2))
    ∧ (∀ fs2 : FS, fs.now = fs2.now → fs.scandir base = fs2.scandir base →
        (∀ e ∈ (fs.scandir base).getD [],
          fs.scandir (base ++ "/" ++ e.name) = fs2.scandir (base ++ "/" ++ e.name)) →
        recursive_folder_search fs base tgt 2 0 none tick
          = recursive_folder_search fs2 base tgt 2 0 none tick) := by
  refine ⟨?_, ?_, ?_⟩
  · intro p tk h
    rw [recursive_folder_search, rfs_fuel] at h
    by_cases ht : 2000 < fs.now (tick + 1) - fs.now tick
    · rw [if_pos ht] at h
      simp at h
    · rw [if_neg ht] at h
      rcases hs : fs.scandir base with _ | entries
      · rw [hs] at h
        simp at h
      · rw [hs] at h
        rcases rfs_loop_recurse_shape fs base tgt (fs.now tick) entries (tick + 2) tk p h
          with ⟨e, hm, hrest⟩ | ⟨e, hm, hrest⟩
        · exact Or.inl ⟨e, by simpa using hm, hrest⟩
        · exact Or.inr ⟨e, by simpa using hm, hrest⟩
  · intro hb
    rw [recursive_folder_search, rfs_fuel, if_pos hb]
  · intro fs2 hnow hs hsub
    rw [recursive_folder_search, recursive_folder_search, rfs_fuel, rfs_fuel, hnow, hs]
    by_cases ht : 2000 < fs2.now (tick + 1) - fs2.now tick
    · rw [if_pos ht, if_pos ht]
    · rw [if_neg ht, if_neg ht]
      rcases h2 : fs2.scandir base with _ | entries
      · rfl
      · refine rfs_loop_frame_recurse fs fs2 hnow base tgt (fs2.now tick) entries ?_ _
        intro e hm
        refine hsub e ?_
        rw [hs, h2]
        simpa using hm

/-- Two-level tree for the C9 witness. -/
def fsC9 : FS := { trivialFS with
  scandir := fun b =>
    (if b == "/home/user" then some [⟨"projects", some true⟩]
     else if b == "/home/user/projects" then some [⟨"MyApp", some true⟩]
     else none) }

/-- Slow clock for the C9 witness: each `time.time()` call is 3 seconds
after the previous one, so the budget is already blown at the first
check. -/
def fsC9slow : FS := { trivialFS with now := fun k => k * 3000 }

/-- A snapshot agreeing with `fsC9` down to the listings of the root's
entries but with an extra listing three levels down: the search result
cannot see the difference. -/
def fsC9deep : FS := { trivialFS with
  scandir := fun b =>
    (if b == "/home/user" then some [⟨"projects", some true⟩]
     else if b == "/home/user/projects" then some [⟨"MyApp", some true⟩]
     else if b == "/home/user/projects/MyApp" then some [⟨"deeper", some true⟩]
     else none) }

/-- Witness for C9: a depth-two hit has the guaranteed shape; with the
budget exceeded the search returns not-found after two clock reads; and
listings below depth two are never consulted. -/
theorem c9_search_depth_and_budget_witness :
    ((∃ e ∈ (fsC9.scandir "/home/user").getD [], e.isDirRes = some true
        ∧ strLower e.name = strLower "myapp"
        ∧ "/home/user/projects/MyApp" = "/home/user" ++ "/" ++ e.name)
      ∨ (∃ e ∈ (fsC9.scandir "/home/user").getD [], e.isDirRes = some true
          ∧ ∃ e2 ∈ (fsC9.scandir ("/home/user" ++ "/" ++ e.name)).getD [],
            e2.isDirRes = some true ∧ strLower e2.name = strLower "myapp"
            ∧ "/home/user/projects/MyApp"
              = "/home/user" ++ "/" ++ e.name ++ "/" ++ e2.name))
    ∧ recursive_folder_search fsC9slow "/h" "x" 2 0 none 7 = (none, 9)
    ∧ recursive_folder_search fsC9 "/home/user" "myapp" 2 0 none 0
      = recursive_folder_search fsC9deep "/home/user" "myapp" 2 0 none 0 :=
  ⟨(c9_search_depth_and_budget fsC9 "/home/user" "myapp" 0).1
      "/home/user/projects/MyApp" 5 (by decide),
   (c9_search_depth_and_budget fsC9slow "/h" "x" 7).2.1 (by decide),
   (c9_search_depth_and_budget fsC9 "/home/user" "myapp" 0).2.2 fsC9deep rfl
     (by decide) (by decide)⟩
